import Mathlib

/-!
Verification development for the amm-trading-suite position engine.

The Python source computes several quantities with IEEE-754 binary64
(double precision) arithmetic: `calculate_slippage_amounts` multiplies a
wei-scale integer by a float multiplier, `remove_liquidity` computes
`int(liquidity * percentage / 100)` with float true division, and
`round_tick_to_spacing` uses `math.floor(tick / spacing)` on a float
quotient for negative ticks.  We model binary64 values as rationals and
CPython's correctly rounded primitive operations (int-to-float
conversion, float multiplication, int/int true division) by `rnd`,
round-to-nearest with ties to even.  CPython guarantees correct rounding
for all of these operations, so the model is exact on them (exponent
overflow/underflow cannot occur at the magnitudes any claim touches).
-/

namespace AmmTrading

/-- Round a rational to the nearest integer, ties to even. -/
def rne (q : ℚ) : ℤ :=
  if q - ⌊q⌋ < 1/2 then ⌊q⌋
  else if 1/2 < q - ⌊q⌋ then ⌊q⌋ + 1
  else if ⌊q⌋ % 2 = 0 then ⌊q⌋ else ⌊q⌋ + 1

/-- Binary64 exponent of a rational: the scale `e` with `2^52 ≤ |q|/2^e < 2^53`. -/
def fexp (q : ℚ) : ℤ := Int.log 2 |q| - 52

/-- Round a rational to the nearest binary64 value (ties to even).
Exponent range is unbounded: no claim reaches overflow or subnormals. -/
def rnd (q : ℚ) : ℚ :=
  if q = 0 then 0 else (rne (q / 2 ^ fexp q) : ℚ) * 2 ^ fexp q

/-- Python `int(x)` on a float: truncation toward zero. -/
def pyInt (q : ℚ) : ℤ := if 0 ≤ q then ⌊q⌋ else ⌈q⌉

/-- Python int-to-float conversion (correctly rounded, ties to even). -/
def pyFloat (n : ℤ) : ℚ := rnd (n : ℚ)

/-- Python float multiplication of two binary64 values. -/
def pyMul (a b : ℚ) : ℚ := rnd (a * b)

/-- Python true division `a / b` of two ints (correctly rounded binary64). -/
def pyDivFloat (a b : ℤ) : ℚ := rnd ((a : ℚ) / (b : ℚ))

/-! Basic properties of the rounding model. -/

theorem rne_intCast (n : ℤ) : rne (n : ℚ) = n := by
  simp [rne]

theorem abs_rne_sub_le (q : ℚ) : |(rne q : ℚ) - q| ≤ 1/2 := by
  have h0 : (⌊q⌋ : ℚ) ≤ q := Int.floor_le q
  have h1 : q < ⌊q⌋ + 1 := Int.lt_floor_add_one q
  unfold rne
  split_ifs with hl hg he <;> rw [abs_le] <;> push_cast <;> constructor <;> linarith

theorem rnd_zero : rnd 0 = 0 := by simp [rnd]

theorem rnd_eq_self {q : ℚ} (h : ∃ m : ℤ, q = (m : ℚ) * 2 ^ fexp q) : rnd q = q := by
  by_cases hq : q = 0
  · simp [rnd, hq]
  · obtain ⟨m, hm⟩ := h
    have h2 : (2 : ℚ) ^ fexp q ≠ 0 := zpow_ne_zero _ (by norm_num)
    have hdiv : q / 2 ^ fexp q = (m : ℚ) := by
      nth_rewrite 1 [hm]
      exact mul_div_cancel_right₀ _ h2
    rw [rnd, if_neg hq, hdiv, rne_intCast, ← hm]

theorem abs_rnd_sub_le (q : ℚ) (hq : q ≠ 0) : |rnd q - q| ≤ 2 ^ (fexp q - 1) := by
  have h2 : (0 : ℚ) < 2 ^ fexp q := zpow_pos (by norm_num) _
  have key := abs_rne_sub_le (q / 2 ^ fexp q)
  have : rnd q - q = ((rne (q / 2 ^ fexp q) : ℚ) - q / 2 ^ fexp q) * 2 ^ fexp q := by
    rw [rnd, if_neg hq]; field_simp
  rw [this, abs_mul, abs_of_pos h2]
  calc |(rne (q / 2 ^ fexp q) : ℚ) - q / 2 ^ fexp q| * 2 ^ fexp q
      ≤ (1/2) * 2 ^ fexp q := by
        exact mul_le_mul_of_nonneg_right key (le_of_lt h2)
    _ = 2 ^ (fexp q - 1) := by
        rw [zpow_sub₀ (by norm_num : (2:ℚ) ≠ 0)]; ring

theorem zpow_fexp_le (q : ℚ) (hq : q ≠ 0) : (2 : ℚ) ^ (fexp q + 52) ≤ |q| := by
  have : fexp q + 52 = Int.log 2 |q| := by unfold fexp; ring
  rw [this]
  exact Int.zpow_log_le_self (by norm_num) (abs_pos.mpr hq)

theorem zpow53_cast : ((2 ^ 53 : ℤ) : ℚ) = (2 : ℚ) ^ (53 : ℤ) := by
  norm_num

/-- Every integer of magnitude at most `2^53` is exactly representable. -/
theorem int_representable {n : ℤ} (hn : |n| ≤ 2 ^ 53) :
    ∃ m : ℤ, (n : ℚ) = (m : ℚ) * 2 ^ fexp (n : ℚ) := by
  by_cases h0 : n = 0
  · exact ⟨0, by simp [h0]⟩
  have habs : (0 : ℚ) < |(n : ℚ)| := by
    rw [abs_pos]; exact_mod_cast h0
  have hcast : |(n : ℚ)| ≤ (2 : ℚ) ^ (53 : ℤ) := by
    rw [← Int.cast_abs, ← zpow53_cast]
    exact_mod_cast hn
  have hlt : |(n : ℚ)| < (2 : ℚ) ^ (54 : ℤ) := by
    refine hcast.trans_lt ?_
    norm_num
  have hlog : Int.log 2 |(n : ℚ)| < 54 :=
    (Int.lt_zpow_iff_log_lt (by norm_num) habs).mp hlt
  by_cases hle : Int.log 2 |(n : ℚ)| ≤ 52
  · -- fexp ≤ 0 : n is a multiple of 2^fexp because 2^(-fexp) is an integer
    have he : fexp (n : ℚ) ≤ 0 := by unfold fexp; omega
    refine ⟨n * 2 ^ (-(fexp (n : ℚ))).toNat, ?_⟩
    have h2 : ((2 : ℚ) ^ (-(fexp (n : ℚ))).toNat : ℚ) = (2 : ℚ) ^ (-(fexp (n : ℚ))) := by
      rw [← zpow_natCast]
      congr 1
      omega
    push_cast
    rw [h2, mul_assoc, ← zpow_add₀ (by norm_num : (2:ℚ) ≠ 0)]
    simp
  · -- log = 53, so |n| = 2^53 exactly and the mantissa is 2^52
    have hlog53 : Int.log 2 |(n : ℚ)| = 53 := by omega
    have hge : (2 : ℚ) ^ (53 : ℤ) ≤ |(n : ℚ)| := by
      have := Int.zpow_log_le_self (b := 2) (r := |(n : ℚ)|) (by norm_num) habs
      rwa [hlog53] at this
    have habs_eq : |(n : ℚ)| = (2 : ℚ) ^ (53 : ℤ) := le_antisymm hcast hge
    have hfe : fexp (n : ℚ) = 1 := by unfold fexp; omega
    have hsplit : (2 : ℚ) ^ (53 : ℤ) = ((2 ^ 52 : ℤ) : ℚ) * 2 ^ (1 : ℤ) := by
      push_cast
      norm_num
    rcases abs_cases (n : ℚ) with ⟨h, _⟩ | ⟨h, _⟩
    · refine ⟨2 ^ 52, ?_⟩
      have hval : (n : ℚ) = (2 : ℚ) ^ (53 : ℤ) := h.symm.trans habs_eq
      rw [hfe, hval, hsplit]
    · refine ⟨-(2 ^ 52), ?_⟩
      have hval : (n : ℚ) = -(2 : ℚ) ^ (53 : ℤ) := by
        have h' := h.symm.trans habs_eq
        linarith
      rw [hfe, hval, hsplit]
      push_cast
      ring

theorem rnd_intCast {n : ℤ} (hn : |n| ≤ 2 ^ 53) : rnd (n : ℚ) = n :=
  rnd_eq_self (int_representable hn)

theorem zpow_split52 (e : ℤ) :
    (2 : ℚ) ^ (e + 52) = ((2 ^ 52 : ℤ) : ℚ) * 2 ^ e := by
  rw [zpow_add₀ (by norm_num : (2:ℚ) ≠ 0)]
  push_cast
  ring

/-- Floor-preservation: rounding `t / s` to binary64 does not move it across an
integer boundary as long as `|t| ≤ 2^53`. -/
theorem floor_rnd_ratio (t s : ℤ) (hs : 0 < s) (ht : |t| ≤ 2 ^ 53) :
    ⌊rnd ((t : ℚ) / (s : ℚ))⌋ = ⌊(t : ℚ) / (s : ℚ)⌋ := by
  set q : ℚ := (t : ℚ) / (s : ℚ) with hq_def
  by_cases hA : ∃ m : ℤ, q = (m : ℚ) * 2 ^ fexp q
  · rw [rnd_eq_self hA]
  · have hq0 : q ≠ 0 := by
      intro h
      exact hA ⟨0, by simp [h]⟩
    have hsQ : (0 : ℚ) < (s : ℚ) := by exact_mod_cast hs
    have hsne : (s : ℚ) ≠ 0 := ne_of_gt hsQ
    have hulp := abs_rnd_sub_le q hq0
    have hlow := zpow_fexp_le q hq0
    have htQ : |(t : ℚ)| ≤ (2 : ℚ) ^ (53 : ℤ) := by
      rw [← Int.cast_abs, ← zpow53_cast]
      exact_mod_cast ht
    -- |q| ≤ 2^53 / s
    have hqb : |q| ≤ (2 : ℚ) ^ (53 : ℤ) / (s : ℚ) := by
      rw [hq_def, abs_div, abs_of_pos hsQ]
      gcongr
    -- half-ulp ≤ 1/s
    have hpow53 : (0 : ℚ) < (2 : ℚ) ^ (53 : ℤ) := by positivity
    have hsplit : (2 : ℚ) ^ (fexp q - 1) * (2 : ℚ) ^ (53 : ℤ) = (2 : ℚ) ^ (fexp q + 52) := by
      rw [← zpow_add₀ (by norm_num : (2:ℚ) ≠ 0)]
      congr 1
      ring
    have hub : (2 : ℚ) ^ (fexp q - 1) ≤ 1 / (s : ℚ) := by
      have h2 : (2 : ℚ) ^ (fexp q - 1) * 2 ^ (53 : ℤ) ≤ 2 ^ (53 : ℤ) / (s : ℚ) := by
        rw [hsplit]
        exact hlow.trans hqb
      calc (2 : ℚ) ^ (fexp q - 1)
          = (2 : ℚ) ^ (fexp q - 1) * 2 ^ (53 : ℤ) / 2 ^ (53 : ℤ) := by field_simp
        _ ≤ (2 ^ (53 : ℤ) / (s : ℚ)) / 2 ^ (53 : ℤ) := by gcongr
        _ = 1 / (s : ℚ) := by
            field_simp
            ring
    -- q is not an integer (an integer with |q| ≤ 2^53 would be representable)
    have hnotint : ∀ m : ℤ, q ≠ (m : ℚ) := by
      intro m hm
      have hs1 : (1 : ℚ) ≤ (s : ℚ) := by exact_mod_cast hs
      have hmQ : |(m : ℚ)| ≤ (2 : ℚ) ^ (53 : ℤ) := by
        rw [← hm]
        refine hqb.trans ?_
        exact div_le_self (le_of_lt hpow53) hs1
      have hmb : |m| ≤ 2 ^ 53 := by
        rw [← zpow53_cast, ← Int.cast_abs] at hmQ
        exact_mod_cast hmQ
      obtain ⟨m', hm'⟩ := int_representable hmb
      rw [← hm] at hm'
      exact hA ⟨m', hm'⟩
    have hkq : (⌊q⌋ : ℚ) ≤ q := Int.floor_le q
    have hkq' : (⌊q⌋ : ℚ) < q := lt_of_le_of_ne hkq (fun h => hnotint ⌊q⌋ h.symm)
    have hqk1 : q < (⌊q⌋ : ℚ) + 1 := Int.lt_floor_add_one q
    -- distances from q to the adjacent integers are at least 1/s
    have hnum1 : ⌊q⌋ * s + 1 ≤ t := by
      have h1 : (⌊q⌋ : ℚ) * (s : ℚ) < (t : ℚ) := by
        have := mul_lt_mul_of_pos_right hkq' hsQ
        rwa [hq_def, div_mul_cancel₀ _ hsne] at this
      have h2 : ⌊q⌋ * s < t := by exact_mod_cast h1
      omega
    have hnum2 : t + 1 ≤ (⌊q⌋ + 1) * s := by
      have h1 : (t : ℚ) < ((⌊q⌋ : ℚ) + 1) * (s : ℚ) := by
        have := mul_lt_mul_of_pos_right hqk1 hsQ
        rwa [hq_def, div_mul_cancel₀ _ hsne] at this
      have h2 : t < (⌊q⌋ + 1) * s := by exact_mod_cast (by push_cast; linarith : (t : ℚ) < (((⌊q⌋ + 1) * s : ℤ) : ℚ))
      omega
    have hd1 : (⌊q⌋ : ℚ) + 1 / (s : ℚ) ≤ q := by
      rw [hq_def, le_div_iff₀ hsQ, add_mul, one_div_mul_cancel hsne]
      have h' : ((⌊q⌋ * s + 1 : ℤ) : ℚ) ≤ ((t : ℤ) : ℚ) := Int.cast_le.mpr hnum1
      push_cast at h'
      linarith
    have hd2 : q ≤ (⌊q⌋ : ℚ) + 1 - 1 / (s : ℚ) := by
      rw [hq_def, div_le_iff₀ hsQ, sub_mul, one_div_mul_cancel hsne]
      have h' : ((t + 1 : ℤ) : ℚ) ≤ (((⌊q⌋ + 1) * s : ℤ) : ℚ) := Int.cast_le.mpr hnum2
      push_cast at h'
      linarith
    have habs1 := (abs_le.mp hulp).1
    have habs2 := (abs_le.mp hulp).2
    apply Int.floor_eq_iff.mpr
    refine ⟨by linarith, ?_⟩
    -- upper bound: rnd q < ⌊q⌋ + 1, by contradiction
    by_contra hcon
    push_neg at hcon
    have h3 : (1 : ℚ) / (s : ℚ) ≤ rnd q - q := by
      linarith
    -- forces equality through the half-ulp chain, so |q| is a power of two
    have heq : (2 : ℚ) ^ (fexp q - 1) = 1 / (s : ℚ) := le_antisymm hub (h3.trans habs2)
    have habs53 : |q| = (2 : ℚ) ^ (fexp q + 52) := by
      have hchain : (2 : ℚ) ^ (53 : ℤ) / (s : ℚ) = (2 : ℚ) ^ (fexp q + 52) := by
        calc (2 : ℚ) ^ (53 : ℤ) / (s : ℚ)
            = (1 / (s : ℚ)) * 2 ^ (53 : ℤ) := by ring
          _ = (2 : ℚ) ^ (fexp q - 1) * 2 ^ (53 : ℤ) := by rw [heq]
          _ = (2 : ℚ) ^ (fexp q + 52) := hsplit
      rw [← hchain] at hlow
      rw [← hchain]
      exact le_antisymm hqb hlow
    -- hence q = ±2^(fexp+52), which is representable: contradiction
    rcases abs_cases q with ⟨hq1, _⟩ | ⟨hq1, _⟩
    · refine hA ⟨2 ^ 52, ?_⟩
      have hqval : q = (2 : ℚ) ^ (fexp q + 52) := hq1.symm.trans habs53
      conv_lhs => rw [hqval]
      rw [zpow_split52]
    · refine hA ⟨-(2 ^ 52), ?_⟩
      have hqval : q = -(2 : ℚ) ^ (fexp q + 52) := by
        have h' := hq1.symm.trans habs53
        linarith
      conv_lhs => rw [hqval]
      rw [zpow_split52]
      push_cast
      ring

/-! Evaluation toolkit: lemmas that let concrete `rnd` values be computed
by `norm_num` (kernel reduction is not available for `ℚ`). -/

theorem log2_eq {q : ℚ} {n : ℤ} (h0 : 0 < q) (h1 : (2 : ℚ) ^ n ≤ q)
    (h2 : q < (2 : ℚ) ^ (n + 1)) : Int.log 2 q = n := by
  have ha := (Int.zpow_le_iff_le_log (b := 2) (by norm_num) h0).mp h1
  have hb := (Int.lt_zpow_iff_log_lt (b := 2) (by norm_num) h0).mp h2
  omega

theorem fexp_eq {q : ℚ} {n : ℤ} (h0 : 0 < |q|) (h1 : (2 : ℚ) ^ n ≤ |q|)
    (h2 : |q| < (2 : ℚ) ^ (n + 1)) : fexp q = n - 52 := by
  unfold fexp
  rw [log2_eq h0 h1 h2]

theorem rne_eval_lt {x : ℚ} {k : ℤ} (h1 : (k : ℚ) ≤ x) (h2 : x < (k : ℚ) + 1/2) :
    rne x = k := by
  have hfl : ⌊x⌋ = k := Int.floor_eq_iff.mpr ⟨h1, by linarith⟩
  unfold rne
  rw [hfl, if_pos (by linarith)]

theorem rne_eval_gt {x : ℚ} {k : ℤ} (h1 : (k : ℚ) + 1/2 < x) (h2 : x < (k : ℚ) + 1) :
    rne x = k + 1 := by
  have hfl : ⌊x⌋ = k := Int.floor_eq_iff.mpr ⟨by linarith, by linarith⟩
  unfold rne
  rw [hfl, if_neg (by linarith), if_pos (by linarith)]

theorem rne_eval_tie {x : ℚ} {k : ℤ} (h1 : x = (k : ℚ) + 1/2) (h2 : k % 2 = 0) :
    rne x = k := by
  have hfl : ⌊x⌋ = k := Int.floor_eq_iff.mpr ⟨by linarith, by linarith⟩
  unfold rne
  rw [hfl, if_neg (by rw [h1]; norm_num), if_neg (by rw [h1]; norm_num), if_pos h2]

theorem rnd_eval_pos {q r : ℚ} {n m : ℤ} (h0 : 0 < q) (hl : (2 : ℚ) ^ n ≤ q)
    (hu : q < (2 : ℚ) ^ (n + 1)) (hm : rne (q / 2 ^ (n - 52)) = m)
    (hr : (m : ℚ) * 2 ^ (n - 52) = r) : rnd q = r := by
  have he : fexp q = n - 52 := fexp_eq (by rwa [abs_of_pos h0])
    (by rwa [abs_of_pos h0]) (by rwa [abs_of_pos h0])
  rw [rnd, if_neg (ne_of_gt h0), he, hm, hr]

theorem rne_neg (x : ℚ) : rne (-x) = -rne x := by
  by_cases hint : ∃ k : ℤ, x = (k : ℚ)
  · obtain ⟨k, rfl⟩ := hint
    have : -(k : ℚ) = ((-k : ℤ) : ℚ) := by push_cast; ring
    rw [this, rne_intCast, rne_intCast]
  · have hne : (⌊x⌋ : ℚ) ≠ x := fun h => hint ⟨⌊x⌋, h.symm⟩
    have hfl : (⌊x⌋ : ℚ) < x := lt_of_le_of_ne (Int.floor_le x) hne
    have hfu : x < ⌊x⌋ + 1 := Int.lt_floor_add_one x
    have hflneg : ⌊-x⌋ = -⌊x⌋ - 1 := by
      apply Int.floor_eq_iff.mpr
      constructor
      · push_cast; linarith
      · push_cast; linarith
    unfold rne
    rw [hflneg]
    have hsub : -x - ((-⌊x⌋ - 1 : ℤ) : ℚ) = 1 - (x - ⌊x⌋) := by push_cast; ring
    rw [hsub]
    split_ifs <;> first | omega | (exfalso; linarith)

theorem rnd_neg (q : ℚ) : rnd (-q) = -rnd q := by
  by_cases hq : q = 0
  · simp [hq, rnd_zero]
  · have h1 : fexp (-q) = fexp q := by unfold fexp; rw [abs_neg]
    rw [rnd, rnd, if_neg (by simpa using hq), if_neg hq, h1, neg_div, rne_neg]
    push_cast
    ring

theorem pyInt_intCast (n : ℤ) : pyInt (n : ℚ) = n := by
  unfold pyInt
  split_ifs
  · exact Int.floor_intCast n
  · exact Int.ceil_intCast n

theorem rnd_one : rnd 1 = 1 := by
  have : ((1 : ℤ) : ℚ) = (1 : ℚ) := by norm_num
  rw [← this, rnd_intCast (by norm_num)]

/-- `⌊(t : ℚ) / s⌋` is Python's floor division `t // s` for positive `s`. -/
theorem floor_cast_div (t s : ℤ) (hs : 0 < s) :
    ⌊(t : ℚ) / (s : ℚ)⌋ = t.fdiv s := by
  rw [Int.fdiv_eq_ediv t (le_of_lt hs)]
  have h1 : ((s.toNat : ℕ) : ℚ) = (s : ℚ) := by
    exact_mod_cast Int.toNat_of_nonneg hs.le
  rw [← h1, Rat.floor_intCast_div_natCast]
  rw [Int.toNat_of_nonneg hs.le]

/-!
Embedding of `src/amm_trading/protocols/uniswap_v3/math.py`.
-/

/-- `calculate_slippage_amounts(amount0, amount1, slippage_bps)`:
`multiplier = (10000 - slippage_bps) / 10000` is Python float true division;
`int(amount * multiplier)` converts the int to a float, multiplies, and
truncates toward zero. -/
def calculate_slippage_amounts (amount0 amount1 slippage_bps : ℤ) : ℤ × ℤ :=
  let multiplier := pyDivFloat (10000 - slippage_bps) 10000
  (pyInt (pyMul (pyFloat amount0) multiplier),
   pyInt (pyMul (pyFloat amount1) multiplier))

/-- `round_tick_to_spacing(tick, spacing)`: `(tick // spacing) * spacing` for
`tick >= 0` (Python integer floor division), otherwise
`math.floor(tick / spacing) * spacing` (float true division, then floor).
Python raises `ZeroDivisionError` for `spacing = 0`; the model is only used
with positive spacing. -/
def round_tick_to_spacing (tick spacing : ℤ) : ℤ :=
  if 0 ≤ tick then tick.fdiv spacing * spacing
  else ⌊pyDivFloat tick spacing⌋ * spacing

/-- With zero tolerance the multiplier is exactly 1, so amounts that are
exactly representable (magnitude at most `2^53`) pass through unchanged. -/
theorem slippage_bps_zero {a0 a1 : ℤ} (h0 : |a0| ≤ 2 ^ 53) (h1 : |a1| ≤ 2 ^ 53) :
    calculate_slippage_amounts a0 a1 0 = (a0, a1) := by
  have hmul : pyDivFloat (10000 - 0) 10000 = 1 := by
    unfold pyDivFloat
    have : ((10000 - 0 : ℤ) : ℚ) / ((10000 : ℤ) : ℚ) = 1 := by norm_num
    rw [this, rnd_one]
  simp only [calculate_slippage_amounts, hmul, pyMul, pyFloat, mul_one,
    rnd_intCast h0, rnd_intCast h1, pyInt_intCast]

/-- With full tolerance (10000 bps) the multiplier is exactly 0, so both
minimums are 0 for every amount. -/
theorem slippage_bps_full (a0 a1 : ℤ) :
    calculate_slippage_amounts a0 a1 10000 = (0, 0) := by
  have hmul : pyDivFloat (10000 - 10000) 10000 = 0 := by
    unfold pyDivFloat
    have : ((10000 - 10000 : ℤ) : ℚ) / ((10000 : ℤ) : ℚ) = 0 := by norm_num
    rw [this, rnd_zero]
  have h00 : pyInt (0 : ℚ) = 0 := by
    rw [show (0 : ℚ) = ((0 : ℤ) : ℚ) by norm_num, pyInt_intCast]
  simp only [calculate_slippage_amounts, hmul, pyMul, mul_zero, rnd_zero, h00]

/-- The binary64 value nearest to `2^53 + 1` is `2^53` (tie broken to even). -/
theorem rnd_pow53_succ :
    rnd (((9007199254740993 : ℤ) : ℚ)) = ((9007199254740992 : ℤ) : ℚ) := by
  have hc : (((9007199254740993 : ℤ) : ℚ)) = (9007199254740993 : ℚ) := by norm_num
  rw [hc]
  apply rnd_eval_pos (n := 53) (m := 4503599627370496)
  · norm_num
  · norm_num
  · norm_num
  · apply rne_eval_tie
    · norm_num
    · decide
  · norm_num

/-- C1: the claim asserts exact integer floor division; the code multiplies by
a binary64 multiplier.  At `toleranceBps = 0` and amount `2^53 + 1` the
returned minimum is `2^53`, not the amount itself as the claim requires. -/
theorem C1_counterexample :
    (calculate_slippage_amounts 9007199254740993 9007199254740993 0).1 =
      9007199254740992 ∧ (9007199254740992 : ℤ) ≠ 9007199254740993 := by
  constructor
  · have hmul : pyDivFloat (10000 - 0) 10000 = 1 := by
      unfold pyDivFloat
      have h : ((10000 - 0 : ℤ) : ℚ) / ((10000 : ℤ) : ℚ) = 1 := by norm_num
      rw [h, rnd_one]
    simp only [calculate_slippage_amounts, hmul, pyMul, pyFloat, mul_one,
      rnd_pow53_succ, rnd_intCast (show |(9007199254740992 : ℤ)| ≤ 2 ^ 53 by norm_num),
      pyInt_intCast]
  · decide

/-- C1 (amended): `calculate_slippage_amounts` computes
`int(float(amount) * float((10000 - toleranceBps) / 10000))` in binary64, not
exact integer floor division.  For `toleranceBps = 10000` the minimum is 0 for
every amount; for `toleranceBps = 0` the minimum equals the amount exactly
whenever the amount is exactly representable (magnitude at most `2^53`);
larger amounts can be rounded. -/
theorem C1_slippage_double_precision :
    (∀ a0 a1 : ℤ, calculate_slippage_amounts a0 a1 10000 = (0, 0)) ∧
    (∀ a0 a1 : ℤ, |a0| ≤ 2 ^ 53 → |a1| ≤ 2 ^ 53 →
      calculate_slippage_amounts a0 a1 0 = (a0, a1)) :=
  ⟨slippage_bps_full, fun _ _ h0 h1 => slippage_bps_zero h0 h1⟩

theorem C1_witness :
    calculate_slippage_amounts 12345 678 10000 = (0, 0) ∧
    calculate_slippage_amounts 12345 678 0 = (12345, 678) :=
  ⟨C1_slippage_double_precision.1 12345 678,
   C1_slippage_double_precision.2 12345 678 (by norm_num) (by norm_num)⟩

/-- The binary64 quotient `-(3 * 2^53 + 1) / 3` rounds to `-2^53`. -/
theorem rnd_c8_quotient :
    rnd (((-27021597764222977 : ℤ) : ℚ) / ((3 : ℤ) : ℚ)) =
      -(9007199254740992 : ℚ) := by
  have h1 : ((-27021597764222977 : ℤ) : ℚ) / ((3 : ℤ) : ℚ) =
      -((27021597764222977 : ℚ) / 3) := by push_cast; ring
  rw [h1, rnd_neg]
  have h2 : rnd ((27021597764222977 : ℚ) / 3) = 9007199254740992 := by
    apply rnd_eval_pos (n := 53) (m := 4503599627370496)
    · norm_num
    · norm_num
    · norm_num
    · apply rne_eval_lt
      · norm_num
      · norm_num
    · norm_num
  rw [h2]

/-- C8: for large negative ticks the float quotient `tick / spacing` rounds
before `math.floor` is applied, so the result is not
`spacing * floor(tick / spacing)`: at `tick = -(3 * 2^53 + 1)`, `spacing = 3`
the code returns `-3 * 2^53` instead of `-3 * (2^53 + 1)`. -/
theorem C8_counterexample :
    round_tick_to_spacing (-27021597764222977) 3 = -27021597764222976 ∧
    (-27021597764222976 : ℤ) ≠
      3 * ⌊((-27021597764222977 : ℤ) : ℚ) / ((3 : ℤ) : ℚ)⌋ := by
  constructor
  · unfold round_tick_to_spacing pyDivFloat
    rw [if_neg (by norm_num), rnd_c8_quotient]
    norm_num
  · have hfl : ⌊((-27021597764222977 : ℤ) : ℚ) / ((3 : ℤ) : ℚ)⌋ =
        -9007199254740993 := by
      rw [floor_cast_div _ _ (by norm_num), Int.fdiv_eq_ediv _ (by norm_num)]
      decide
    rw [hfl]
    decide

/-- C8 (amended): `round_tick_to_spacing` equals
`spacing * floor(tick / spacing)` (floor toward negative infinity) and fixes
exact multiples, provided `|tick| ≤ 2^53` — which covers every valid protocol
tick; beyond that the float division in the negative branch can round. -/
theorem C8_round_tick_amended (tick spacing : ℤ) (hs : 0 < spacing)
    (ht : |tick| ≤ 2 ^ 53) :
    round_tick_to_spacing tick spacing = spacing * ⌊(tick : ℚ) / (spacing : ℚ)⌋ ∧
    (spacing ∣ tick → round_tick_to_spacing tick spacing = tick) := by
  have hmain : round_tick_to_spacing tick spacing =
      spacing * ⌊(tick : ℚ) / (spacing : ℚ)⌋ := by
    unfold round_tick_to_spacing
    split_ifs with hpos
    · rw [floor_cast_div _ _ hs]
      ring
    · unfold pyDivFloat
      rw [floor_rnd_ratio tick spacing hs ht]
      ring
  refine ⟨hmain, fun hdvd => ?_⟩
  obtain ⟨c, hc⟩ := hdvd
  have hsne : (spacing : ℚ) ≠ 0 := by
    exact_mod_cast hs.ne'
  rw [hmain, hc]
  have hq : ((spacing * c : ℤ) : ℚ) / (spacing : ℚ) = (c : ℚ) := by
    push_cast
    field_simp
  rw [hq, Int.floor_intCast]

theorem C8_witness :
    round_tick_to_spacing (-75) 10 = -80 ∧ round_tick_to_spacing 120 60 = 120 := by
  have h1 := C8_round_tick_amended (-75) 10 (by norm_num) (by norm_num)
  have h2 := C8_round_tick_amended 120 60 (by norm_num) (by norm_num)
  refine ⟨?_, h2.2 ⟨2, by norm_num⟩⟩
  rw [h1.1]
  have : ⌊((-75 : ℤ) : ℚ) / ((10 : ℤ) : ℚ)⌋ = -8 := by
    rw [floor_cast_div _ _ (by norm_num), Int.fdiv_eq_ediv _ (by norm_num)]
    decide
  rw [this]
  norm_num

/-!
Embedding of the position-lifecycle operations of
`src/amm_trading/protocols/uniswap_v3/operations/liquidity.py` together with
the external collaborators they call (`contracts/nfpm.py`, `contracts/erc20.py`,
`protocols/uniswap_v3/config.py`).  External calls are modeled as transitions
on an explicit chain state that also produce a trace of submitted operations.
-/

/-- Token / account addresses. -/
abbrev Address := ℕ

/-- The fields of `NFPM.get_position` that the lifecycle operations read. -/
structure PositionData where
  token0 : Address
  token1 : Address
  fee : ℤ
  tick_lower : ℤ
  tick_upper : ℤ
  liquidity : ℤ

/-- On-chain state visible to the operations: NFT ownership, position data,
the signer's wallet balances, ERC-20 allowances granted to the NFPM, token
decimals, and the pending amounts a `collect` pays out (tokens owed plus
accrued fees, abstract). -/
structure Chain where
  selfAddr : Address
  owner : ℤ → Address
  positions : ℤ → PositionData
  wallet : Address → ℤ
  allowance : Address → ℤ
  decimals : Address → ℕ
  payout0 : ℤ → ℤ
  payout1 : ℤ → ℤ
  nextTokenId : ℤ

/-- Externally submitted operations, in submission order. -/
inductive Event where
  | decrease (tokenId liq : ℤ)
  | collect (tokenId : ℤ)
  | burn (tokenId : ℤ)
  | approve (token : Address) (amount : ℤ)
  | mint (token0 token1 : Address)
      (fee tick_lower tick_upper amount0 amount1 amount0_min amount1_min : ℤ)
deriving DecidableEq, Repr

/-- Errors raised by the lifecycle operations before (or instead of) any
further submission. -/
inductive Err where
  | notOwner
  | zeroLiquidity
  | zeroRemoval
  | invalidTickRange
  | insufficientBalance
  | configError
deriving DecidableEq, Repr

/-- `NFPM.decrease_liquidity`: the position's stored liquidity decreases. -/
def nfpmDecrease (c : Chain) (tokenId liq : ℤ) : Chain :=
  { c with positions := fun i =>
      if i = tokenId then
        { c.positions tokenId with liquidity := (c.positions tokenId).liquidity - liq }
      else c.positions i }

/-- `NFPM.collect`: the pending payout of the position is credited to the
signer's wallet. -/
def nfpmCollect (c : Chain) (tokenId : ℤ) : Chain :=
  { c with
    wallet := fun a =>
      (if a = (c.positions tokenId).token0 then c.payout0 tokenId else 0) +
      (if a = (c.positions tokenId).token1 then c.payout1 tokenId else 0) +
      c.wallet a,
    payout0 := fun i => if i = tokenId then 0 else c.payout0 i,
    payout1 := fun i => if i = tokenId then 0 else c.payout1 i }

/-- `NFPM.burn`: the position NFT ceases to exist (owner cleared). -/
def nfpmBurn (c : Chain) (tokenId : ℤ) : Chain :=
  { c with owner := fun i => if i = tokenId then 0 else c.owner i }

/-- `ERC20.balance_human`: `balance_of() / (10 ** decimals)`, Python float
true division. -/
def balance_human (c : Chain) (token : Address) : ℚ :=
  pyDivFloat (c.wallet token) ((10 : ℤ) ^ c.decimals token)

/-- `ERC20.to_wei`: `int(amount * (10 ** decimals))`, float multiplication
then truncation. -/
def to_wei (c : Chain) (token : Address) (amount : ℚ) : ℤ :=
  pyInt (pyMul amount (pyFloat ((10 : ℤ) ^ c.decimals token)))

/-- `ERC20.approve`: skipped (no submission) when the current allowance
already covers the amount. -/
def erc20Approve (c : Chain) (token : Address) (amountWei : ℤ) : Chain × List Event :=
  if amountWei ≤ c.allowance token then (c, [])
  else ({ c with allowance := fun a => if a = token then amountWei else c.allowance a },
        [.approve token amountWei])

/-- `UniswapV3Config.get_tick_spacing`: the `TICK_SPACING` table;
unknown fee tiers raise `ConfigError`. -/
def get_tick_spacing (fee : ℤ) : Option ℤ :=
  if fee = 100 then some 1
  else if fee = 500 then some 10
  else if fee = 3000 then some 60
  else if fee = 10000 then some 200
  else none

/-- The caller-visible fields of `remove_liquidity`'s result dict that the
claims mention (receipts are represented by the event trace). -/
structure RemoveResult where
  token_id : ℤ
  burn_skipped : Option String
deriving DecidableEq

/-- `LiquidityManager.remove_liquidity(token_id, percentage, collect_fees, burn)`. -/
def remove_liquidity (c : Chain) (tokenId percentage : ℤ)
    (collect_fees burn : Bool) : Except Err (RemoveResult × Chain × List Event) :=
  if c.owner tokenId ≠ c.selfAddr then .error .notOwner
  else
    let liquidity := (c.positions tokenId).liquidity
    if liquidity = 0 then .error .zeroLiquidity
    else
      let liquidity_to_remove :=
        if percentage = 100 then liquidity
        else pyInt (pyDivFloat (liquidity * percentage) 100)
      if liquidity_to_remove = 0 then .error .zeroRemoval
      else
        let c1 := nfpmDecrease c tokenId liquidity_to_remove
        let step2 :=
          if collect_fees then
            (nfpmCollect c1 tokenId, [Event.decrease tokenId liquidity_to_remove,
                                      Event.collect tokenId])
          else (c1, [Event.decrease tokenId liquidity_to_remove])
        if burn then
          if percentage ≠ 100 then
            .ok (⟨tokenId, some "Can only burn when removing 100% liquidity"⟩,
                 step2.1, step2.2)
          else
            .ok (⟨tokenId, none⟩, nfpmBurn step2.1 tokenId,
                 step2.2 ++ [Event.burn tokenId])
        else .ok (⟨tokenId, none⟩, step2.1, step2.2)

/-- The caller-visible fields of `add_liquidity`'s result dict that the claims
mention. -/
structure AddResult where
  token_id : ℤ
  tick_lower : ℤ
  tick_upper : ℤ
  tokens_swapped : Bool
deriving DecidableEq

/-- `LiquidityManager.add_liquidity(token0, token1, fee, tick_lower,
tick_upper, amount0, amount1, slippage_bps)`.  Token symbol resolution
(`_get_token_address`) is the identity on already-resolved addresses. -/
def add_liquidity (c : Chain) (token0 token1 : Address)
    (fee tick_lower tick_upper : ℤ) (amount0 amount1 : ℚ) (slippage_bps : ℤ) :
    Except Err (AddResult × Chain × List Event) :=
  -- _ensure_token_order: swap both token roles and their amounts together
  let ord :=
    if token1 < token0 then (token1, token0, amount1, amount0, true)
    else (token0, token1, amount0, amount1, false)
  match get_tick_spacing fee with
  | none => .error .configError
  | some spacing =>
    let tl := round_tick_to_spacing tick_lower spacing
    let tu := round_tick_to_spacing tick_upper spacing
    if tu ≤ tl then .error .invalidTickRange
    else
      let amount0_wei := to_wei c ord.1 ord.2.2.1
      let amount1_wei := to_wei c ord.2.1 ord.2.2.2.1
      if c.wallet ord.1 < amount0_wei then .error .insufficientBalance
      else if c.wallet ord.2.1 < amount1_wei then .error .insufficientBalance
      else
        let ap0 := erc20Approve c ord.1 amount0_wei
        let ap1 := erc20Approve ap0.1 ord.2.1 amount1_wei
        let mins := calculate_slippage_amounts amount0_wei amount1_wei slippage_bps
        .ok (⟨ap1.1.nextTokenId, tl, tu, ord.2.2.2.2⟩,
             { ap1.1 with nextTokenId := ap1.1.nextTokenId + 1 },
             ap0.2 ++ ap1.2 ++
               [Event.mint ord.1 ord.2.1 fee tl tu amount0_wei amount1_wei
                 mins.1 mins.2])

/-- The caller-visible fields of `migrate_liquidity`'s result dict that the
claims mention. -/
structure MigrateResult where
  old_token_id : ℤ
  new_token_id : ℤ
  percentage_migrated : ℤ
deriving DecidableEq

/-- `LiquidityManager.migrate_liquidity(token_id, new_tick_lower,
new_tick_upper, percentage, collect_fees, burn_old, slippage_bps)`:
`remove_liquidity(token_id, percentage, collect_fees, burn_old and
percentage == 100)`, then wallet `balance_human` reads, then
`add_liquidity` with those balances. -/
def migrate_liquidity (c : Chain) (tokenId new_tick_lower new_tick_upper percentage : ℤ)
    (collect_fees burn_old : Bool) (slippage_bps : ℤ) :
    Except Err (MigrateResult × Chain × List Event) :=
  let pos := c.positions tokenId
  if c.owner tokenId ≠ c.selfAddr then .error .notOwner
  else
    match get_tick_spacing pos.fee with
    | none => .error .configError
    | some spacing =>
      let ntl := round_tick_to_spacing new_tick_lower spacing
      let ntu := round_tick_to_spacing new_tick_upper spacing
      match remove_liquidity c tokenId percentage collect_fees
          (burn_old && percentage == 100) with
      | .error e => .error e
      | .ok r1 =>
        let balance0 := balance_human r1.2.1 pos.token0
        let balance1 := balance_human r1.2.1 pos.token1
        match add_liquidity r1.2.1 pos.token0 pos.token1 pos.fee ntl ntu
            balance0 balance1 slippage_bps with
        | .error e => .error e
        | .ok r2 =>
          .ok (⟨tokenId, r2.1.token_id, percentage⟩, r2.2.1, r1.2.2 ++ r2.2.2)

/-- Trace projection of `remove_liquidity` (the submitted operations). -/
def removeEvents (c : Chain) (tokenId percentage : ℤ) (collect_fees burn : Bool) :
    Except Err (List Event) :=
  (remove_liquidity c tokenId percentage collect_fees burn).map (fun r => r.2.2)

/-- Trace projection of `add_liquidity`. -/
def addEvents (c : Chain) (token0 token1 : Address) (fee tick_lower tick_upper : ℤ)
    (amount0 amount1 : ℚ) (slippage_bps : ℤ) : Except Err (List Event) :=
  (add_liquidity c token0 token1 fee tick_lower tick_upper amount0 amount1
    slippage_bps).map (fun r => r.2.2)

/-- Trace projection of `migrate_liquidity`. -/
def migrateEvents (c : Chain) (tokenId new_tick_lower new_tick_upper percentage : ℤ)
    (collect_fees burn_old : Bool) (slippage_bps : ℤ) : Except Err (List Event) :=
  (migrate_liquidity c tokenId new_tick_lower new_tick_upper percentage
    collect_fees burn_old slippage_bps).map (fun r => r.2.2)

/-! Symbolic execution of `remove_liquidity` under its preconditions. -/

theorem remove_trace_100 (c : Chain) (tid : ℤ) (cf bn : Bool)
    (howner : c.owner tid = c.selfAddr)
    (hL : (c.positions tid).liquidity ≠ 0) :
    remove_liquidity c tid 100 cf bn =
      .ok (⟨tid, none⟩,
        (if bn then
          nfpmBurn (if cf then nfpmCollect (nfpmDecrease c tid (c.positions tid).liquidity) tid
                    else nfpmDecrease c tid (c.positions tid).liquidity) tid
         else if cf then nfpmCollect (nfpmDecrease c tid (c.positions tid).liquidity) tid
         else nfpmDecrease c tid (c.positions tid).liquidity),
        ((if cf then [Event.decrease tid (c.positions tid).liquidity, Event.collect tid]
          else [Event.decrease tid (c.positions tid).liquidity]) ++
         (if bn then [Event.burn tid] else []))) := by
  simp only [remove_liquidity, howner, ne_eq, not_true_eq_false, if_false, hL,
    if_pos rfl]
  cases cf <;> cases bn <;> simp [hL]

theorem remove_trace_pct (c : Chain) (tid pct : ℤ) (cf : Bool)
    (howner : c.owner tid = c.selfAddr)
    (hL : (c.positions tid).liquidity ≠ 0)
    (hpct : pct ≠ 100)
    (hR : pyInt (pyDivFloat ((c.positions tid).liquidity * pct) 100) ≠ 0) :
    remove_liquidity c tid pct cf false =
      .ok (⟨tid, none⟩,
        (if cf then
          nfpmCollect (nfpmDecrease c tid
            (pyInt (pyDivFloat ((c.positions tid).liquidity * pct) 100))) tid
         else nfpmDecrease c tid
            (pyInt (pyDivFloat ((c.positions tid).liquidity * pct) 100))),
        ((if cf then
            [Event.decrease tid (pyInt (pyDivFloat ((c.positions tid).liquidity * pct) 100)),
             Event.collect tid]
          else
            [Event.decrease tid
              (pyInt (pyDivFloat ((c.positions tid).liquidity * pct) 100))]))) := by
  simp only [remove_liquidity, howner, ne_eq, not_true_eq_false, if_false, hL,
    if_neg hpct, if_neg hR]
  cases cf <;> simp [hL, hR]

theorem remove_zero_reject (c : Chain) (tid pct : ℤ) (cf bn : Bool)
    (howner : c.owner tid = c.selfAddr)
    (hL : (c.positions tid).liquidity ≠ 0)
    (hpct : pct ≠ 100)
    (hR : pyInt (pyDivFloat ((c.positions tid).liquidity * pct) 100) = 0) :
    remove_liquidity c tid pct cf bn = .error .zeroRemoval := by
  simp only [remove_liquidity, howner, ne_eq, not_true_eq_false, if_false, hL,
    if_neg hpct, hR]
  simp [hL]

theorem remove_burn_skip (c : Chain) (tid pct : ℤ) (cf : Bool)
    (howner : c.owner tid = c.selfAddr)
    (hL : (c.positions tid).liquidity ≠ 0)
    (hpct : pct ≠ 100)
    (hR : pyInt (pyDivFloat ((c.positions tid).liquidity * pct) 100) ≠ 0) :
    remove_liquidity c tid pct cf true =
      .ok (⟨tid, some "Can only burn when removing 100% liquidity"⟩,
        (if cf then
          nfpmCollect (nfpmDecrease c tid
            (pyInt (pyDivFloat ((c.positions tid).liquidity * pct) 100))) tid
         else nfpmDecrease c tid
            (pyInt (pyDivFloat ((c.positions tid).liquidity * pct) 100))),
        ((if cf then
            [Event.decrease tid (pyInt (pyDivFloat ((c.positions tid).liquidity * pct) 100)),
             Event.collect tid]
          else
            [Event.decrease tid
              (pyInt (pyDivFloat ((c.positions tid).liquidity * pct) 100))]))) := by
  simp only [remove_liquidity, howner, ne_eq, not_true_eq_false, if_false, hL,
    if_neg hpct, if_neg hR]
  cases cf <;> simp [hL, hR, hpct]

/-! Symbolic execution of `add_liquidity` and `migrate_liquidity`. -/

theorem add_trace (c : Chain) (t0 t1 : Address) (fee tl tu : ℤ) (a0 a1 : ℚ)
    (sl sp rtl rtu w0 w1 : ℤ)
    (horder : t0 < t1)
    (hsp : get_tick_spacing fee = some sp)
    (hrtl : rtl = round_tick_to_spacing tl sp)
    (hrtu : rtu = round_tick_to_spacing tu sp)
    (htick : rtl < rtu)
    (hw0 : w0 = to_wei c t0 a0)
    (hw1 : w1 = to_wei c t1 a1)
    (hb0 : w0 ≤ c.wallet t0)
    (hb1 : w1 ≤ c.wallet t1) :
    addEvents c t0 t1 fee tl tu a0 a1 sl =
      .ok ((erc20Approve c t0 w0).2 ++
        (erc20Approve (erc20Approve c t0 w0).1 t1 w1).2 ++
        [Event.mint t0 t1 fee rtl rtu w0 w1
          (calculate_slippage_amounts w0 w1 sl).1
          (calculate_slippage_amounts w0 w1 sl).2]) := by
  have hno : ¬ t1 < t0 := lt_asymm horder
  simp only [addEvents, add_liquidity, hsp, if_neg hno, ← hrtl, ← hrtu, ← hw0, ← hw1,
    if_neg (not_lt.mpr hb0), if_neg (not_lt.mpr hb1), if_neg (not_le.mpr htick),
    Except.map]

theorem migrate_trace (c : Chain) (tid ntl ntu sl sp : ℤ) (c3 : Chain)
    (t0 t1 : Address) (L rtl rtu w0 w1 : ℤ)
    (ht0 : t0 = (c.positions tid).token0)
    (ht1 : t1 = (c.positions tid).token1)
    (hLdef : L = (c.positions tid).liquidity)
    (howner : c.owner tid = c.selfAddr)
    (hL : L ≠ 0)
    (hsp : get_tick_spacing (c.positions tid).fee = some sp)
    (horder : t0 < t1)
    (hc3 : c3 = nfpmBurn (nfpmCollect (nfpmDecrease c tid L) tid) tid)
    (hrtl : rtl = round_tick_to_spacing (round_tick_to_spacing ntl sp) sp)
    (hrtu : rtu = round_tick_to_spacing (round_tick_to_spacing ntu sp) sp)
    (hw0 : w0 = to_wei c3 t0 (balance_human c3 t0))
    (hw1 : w1 = to_wei c3 t1 (balance_human c3 t1))
    (htick : rtl < rtu)
    (hb0 : w0 ≤ c3.wallet t0)
    (hb1 : w1 ≤ c3.wallet t1) :
    migrateEvents c tid ntl ntu 100 true true sl =
      .ok ([Event.decrease tid L, Event.collect tid, Event.burn tid] ++
        ((erc20Approve c3 t0 w0).2 ++
         (erc20Approve (erc20Approve c3 t0 w0).1 t1 w1).2 ++
         [Event.mint t0 t1 (c.positions tid).fee rtl rtu w0 w1
           (calculate_slippage_amounts w0 w1 sl).1
           (calculate_slippage_amounts w0 w1 sl).2])) := by
  subst ht0 ht1 hLdef
  have hrem := remove_trace_100 c tid true true howner hL
  have hadd := add_trace c3 (c.positions tid).token0 (c.positions tid).token1
    (c.positions tid).fee (round_tick_to_spacing ntl sp) (round_tick_to_spacing ntu sp)
    (balance_human c3 (c.positions tid).token0)
    (balance_human c3 (c.positions tid).token1)
    sl sp rtl rtu w0 w1 horder hsp hrtl hrtu htick hw0 hw1 hb0 hb1
  simp only [addEvents] at hadd
  simp only [migrateEvents, migrate_liquidity, howner, ne_eq, not_true_eq_false,
    if_false, hsp]
  have hbeq : (true && (100 == (100 : ℤ))) = true := by decide
  rw [hbeq, hrem]
  simp only [hc3] at hadd ⊢
  -- the remove result chain with cf = bn = true is exactly c3
  simp only [if_true]
  rcases hres : add_liquidity (nfpmBurn (nfpmCollect (nfpmDecrease c tid
      (c.positions tid).liquidity) tid) tid) (c.positions tid).token0
      (c.positions tid).token1 (c.positions tid).fee
      (round_tick_to_spacing ntl sp) (round_tick_to_spacing ntu sp)
      (balance_human (nfpmBurn (nfpmCollect (nfpmDecrease c tid
        (c.positions tid).liquidity) tid) tid) (c.positions tid).token0)
      (balance_human (nfpmBurn (nfpmCollect (nfpmDecrease c tid
        (c.positions tid).liquidity) tid) tid) (c.positions tid).token1) sl
    with e | r2
  · rw [hres] at hadd
    simp [Except.map] at hadd
  · rw [hres] at hadd
    simp only [Except.map] at hadd
    simp at hadd
    simp [hadd, Except.map, List.append_assoc]

/-! Further evaluation lemmas. -/

/-- A positive dyadic rational with 53-bit mantissa is exactly representable. -/
theorem rnd_dyadic {q : ℚ} {n : ℤ} (h0 : 0 < q) (hl : (2 : ℚ) ^ n ≤ q)
    (hu : q < (2 : ℚ) ^ (n + 1)) (hm : ∃ m : ℤ, q = (m : ℚ) * 2 ^ (n - 52)) :
    rnd q = q := by
  have hf : fexp q = n - 52 := fexp_eq (by rwa [abs_of_pos h0])
    (by rwa [abs_of_pos h0]) (by rwa [abs_of_pos h0])
  exact rnd_eq_self (by rw [hf]; exact hm)

/-- Truncating the rounded float quotient of nonneg ints below `2^53` is
Python's floor division. -/
theorem pyInt_pyDivFloat (N s : ℤ) (h0 : 0 ≤ N) (hs : 0 < s) (h1 : N ≤ 2 ^ 53) :
    pyInt (pyDivFloat N s) = N.fdiv s := by
  have habs : |N| ≤ 2 ^ 53 := by rwa [abs_of_nonneg h0]
  have hfl := floor_rnd_ratio N s hs habs
  have hq : (0 : ℚ) ≤ (N : ℚ) / (s : ℚ) := by
    apply div_nonneg
    · exact_mod_cast h0
    · exact_mod_cast hs.le
  have hflnn : (0 : ℤ) ≤ ⌊rnd ((N : ℚ) / (s : ℚ))⌋ := by
    rw [hfl]
    exact Int.floor_nonneg.mpr hq
  have hrnn : (0 : ℚ) ≤ rnd ((N : ℚ) / (s : ℚ)) :=
    le_trans (by exact_mod_cast hflnn) (Int.floor_le _)
  unfold pyInt pyDivFloat
  rw [if_pos hrnn, hfl, floor_cast_div N s hs]

theorem balance_human_decZero (c : Chain) (t : Address) (hd : c.decimals t = 0)
    (h : |c.wallet t| ≤ 2 ^ 53) : balance_human c t = ((c.wallet t : ℤ) : ℚ) := by
  unfold balance_human pyDivFloat
  rw [hd, pow_zero, Int.cast_one, div_one, rnd_intCast h]

theorem to_wei_decZero (c : Chain) (t : Address) (hd : c.decimals t = 0)
    (a : ℤ) (h : |a| ≤ 2 ^ 53) : to_wei c t ((a : ℤ) : ℚ) = a := by
  unfold to_wei pyMul pyFloat
  rw [hd, pow_zero, rnd_intCast (show |(1 : ℤ)| ≤ 2 ^ 53 by norm_num),
    Int.cast_one, mul_one, rnd_intCast h, pyInt_intCast]

/-!
Claim theorems for the decrease / burn-skip behavior of `remove_liquidity`
(claims C3 and C5) and the migrate / add traces (claims C2 and C9).
-/

/-- C3 (amended): with `percentage == 100`, `remove_liquidity` submits exactly
the stored liquidity and the position's resulting liquidity is exactly 0; any
other percentage submits `int(float(liquidity * percentage) / 100)`, which
equals `floor(liquidity * percentage / 100)` whenever
`0 ≤ liquidity * percentage ≤ 2^53` (for larger products the binary64 division
can round); a computed removal of 0 is rejected with an error before any
external submission. -/
theorem C3_remove_percentage (c : Chain) (tid : ℤ) (cf : Bool)
    (howner : c.owner tid = c.selfAddr)
    (hL : (c.positions tid).liquidity ≠ 0) :
    (∀ res c' ev, remove_liquidity c tid 100 cf false = .ok (res, c', ev) →
      ev.head? = some (Event.decrease tid (c.positions tid).liquidity) ∧
      (c'.positions tid).liquidity = 0) ∧
    (∀ pct res c' ev, pct ≠ 100 →
      0 ≤ (c.positions tid).liquidity * pct →
      (c.positions tid).liquidity * pct ≤ 2 ^ 53 →
      remove_liquidity c tid pct cf false = .ok (res, c', ev) →
      ev.head? = some (Event.decrease tid
        (((c.positions tid).liquidity * pct).fdiv 100))) ∧
    (∀ pct, pct ≠ 100 →
      pyInt (pyDivFloat ((c.positions tid).liquidity * pct) 100) = 0 →
      remove_liquidity c tid pct cf false = .error Err.zeroRemoval) := by
  refine ⟨?_, ?_, ?_⟩
  · intro res c' ev h
    rw [remove_trace_100 c tid cf false howner hL] at h
    simp only [Bool.false_eq_true, if_false, List.append_nil, Except.ok.injEq,
      Prod.mk.injEq] at h
    obtain ⟨-, hc', hev⟩ := h
    subst hc' hev
    constructor
    · cases cf <;> simp
    · cases cf <;> simp [nfpmCollect, nfpmDecrease]
  · intro pct res c' ev hpct hnn hle h
    have hR : pyInt (pyDivFloat ((c.positions tid).liquidity * pct) 100) =
        ((c.positions tid).liquidity * pct).fdiv 100 :=
      pyInt_pyDivFloat _ 100 hnn (by norm_num) hle
    by_cases hz : pyInt (pyDivFloat ((c.positions tid).liquidity * pct) 100) = 0
    · rw [remove_zero_reject c tid pct cf false howner hL hpct hz] at h
      simp at h
    · rw [remove_trace_pct c tid pct cf howner hL hpct hz] at h
      simp only [Except.ok.injEq, Prod.mk.injEq] at h
      obtain ⟨-, -, hev⟩ := h
      subst hev
      cases cf <;> simp [hR]
  · intro pct hpct hR0
    exact remove_zero_reject c tid pct cf false howner hL hpct hR0

/-- Concrete state for the C3 counterexample: a position whose stored
liquidity is `2^54 + 2`. -/
def cexChain3 : Chain :=
  ⟨1, fun _ => 1, fun _ => ⟨5, 9, 3000, 0, 60, 18014398509481986⟩,
   fun _ => 0, fun _ => 0, fun _ => 0, fun _ => 0, fun _ => 0, 2⟩

/-- C3: the claim's `floor(L * percentage / 100)` formula fails on the code:
with `L = 2^54 + 2` and `percentage = 50` the float division yields
`2^53` (tie to even), while exact floor division yields `2^53 + 1`, so the
decrease submitted on chain is one unit short. -/
theorem C3_counterexample :
    removeEvents cexChain3 1 50 true false =
      .ok [Event.decrease 1 9007199254740992, Event.collect 1] ∧
    (9007199254740992 : ℤ) ≠ ((18014398509481986 * 50 : ℤ)).fdiv 100 := by
  constructor
  · have hval : pyInt (pyDivFloat ((cexChain3.positions 1).liquidity * 50) 100) =
        9007199254740992 := by
      have hq : (((cexChain3.positions 1).liquidity * 50 : ℤ) : ℚ) / ((100 : ℤ) : ℚ) =
          ((9007199254740993 : ℤ) : ℚ) := by
        norm_num [cexChain3]
      unfold pyDivFloat
      rw [hq, rnd_pow53_succ, pyInt_intCast]
    have h := remove_trace_pct cexChain3 1 50 true rfl (by norm_num [cexChain3])
      (by norm_num) (by rw [hval]; norm_num)
    rw [hval] at h
    unfold removeEvents
    rw [h]
    rfl
  · decide

/-- Concrete state for the C3 witness: stored liquidity 1. -/
def witChain3 : Chain :=
  ⟨1, fun _ => 1, fun _ => ⟨5, 9, 3000, 0, 60, 1⟩,
   fun _ => 0, fun _ => 0, fun _ => 0, fun _ => 0, fun _ => 0, 2⟩

theorem C3_witness :
    remove_liquidity witChain3 1 25 true false = .error Err.zeroRemoval := by
  have hval : pyInt (pyDivFloat ((witChain3.positions 1).liquidity * 25) 100) = 0 := by
    have hq : (((witChain3.positions 1).liquidity * 25 : ℤ) : ℚ) / ((100 : ℤ) : ℚ) =
        (1 / 4 : ℚ) := by norm_num [witChain3]
    unfold pyDivFloat
    rw [hq, rnd_dyadic (n := -2) (by norm_num) (by norm_num) (by norm_num)
      ⟨2 ^ 52, by norm_num⟩]
    unfold pyInt
    rw [if_pos (by norm_num)]
    norm_num
  exact (C3_remove_percentage witChain3 1 true rfl (by norm_num [witChain3])).2.2
    25 (by norm_num) hval

/-- C5 (amended): in a combined decrease+burn request with `percentage < 100`
whose computed removal amount is nonzero, decrease (and collect when
requested) still execute, no burn is submitted, and the result carries an
explicit skipped message; if the computed removal amount is zero the whole
request is instead rejected before any submission (so nothing executes). -/
theorem C5_burn_skip_signal (c : Chain) (tid pct : ℤ) (cf : Bool)
    (howner : c.owner tid = c.selfAddr)
    (hL : (c.positions tid).liquidity ≠ 0)
    (hpct : pct ≠ 100)
    (hR : pyInt (pyDivFloat ((c.positions tid).liquidity * pct) 100) ≠ 0) :
    removeEvents c tid pct cf true =
      .ok (if cf then
        [Event.decrease tid (pyInt (pyDivFloat ((c.positions tid).liquidity * pct) 100)),
         Event.collect tid]
        else
        [Event.decrease tid (pyInt (pyDivFloat ((c.positions tid).liquidity * pct) 100))]) ∧
    (∀ res c' ev, remove_liquidity c tid pct cf true = .ok (res, c', ev) →
      res.burn_skipped = some "Can only burn when removing 100% liquidity") := by
  have h := remove_burn_skip c tid pct cf howner hL hpct hR
  constructor
  · simp [removeEvents, h, Except.map]
  · intro res c' ev hok
    rw [h] at hok
    simp only [Except.ok.injEq, Prod.mk.injEq] at hok
    obtain ⟨hres, -, -⟩ := hok
    rw [← hres]

/-- Concrete state for the C5 counterexample: stored liquidity 1. -/
def cexChain5 : Chain :=
  ⟨1, fun _ => 1, fun _ => ⟨5, 9, 3000, 0, 60, 1⟩,
   fun _ => 0, fun _ => 0, fun _ => 0, fun _ => 0, fun _ => 0, 2⟩

/-- C5: the claim quantifies over every `percentage < 100` on a position with
liquidity > 0, but with liquidity 1 and percentage 50 the computed removal is
`int(0.5) = 0`, so the whole request errors: decrease and collect do NOT
execute and no skipped signal is produced. -/
theorem C5_counterexample :
    0 < (cexChain5.positions 1).liquidity ∧ (50 : ℤ) < 100 ∧
    remove_liquidity cexChain5 1 50 true true = .error Err.zeroRemoval := by
  refine ⟨by norm_num [cexChain5], by norm_num, ?_⟩
  have hval : pyInt (pyDivFloat ((cexChain5.positions 1).liquidity * 50) 100) = 0 := by
    have hq : (((cexChain5.positions 1).liquidity * 50 : ℤ) : ℚ) / ((100 : ℤ) : ℚ) =
        (1 / 2 : ℚ) := by norm_num [cexChain5]
    unfold pyDivFloat
    rw [hq, rnd_dyadic (n := -1) (by norm_num) (by norm_num) (by norm_num)
      ⟨2 ^ 52, by norm_num⟩]
    unfold pyInt
    rw [if_pos (by norm_num)]
    norm_num
  exact remove_zero_reject cexChain5 1 50 true true rfl (by norm_num [cexChain5])
    (by norm_num) hval

/-- Concrete state for the C5 witness: stored liquidity 8. -/
def witChain5 : Chain :=
  ⟨1, fun _ => 1, fun _ => ⟨5, 9, 3000, 0, 60, 8⟩,
   fun _ => 0, fun _ => 0, fun _ => 0, fun _ => 0, fun _ => 0, 2⟩

theorem C5_witness :
    removeEvents witChain5 1 50 true true =
      .ok [Event.decrease 1 4, Event.collect 1] := by
  have hval : pyInt (pyDivFloat ((witChain5.positions 1).liquidity * 50) 100) = 4 := by
    have hq : (((witChain5.positions 1).liquidity * 50 : ℤ) : ℚ) / ((100 : ℤ) : ℚ) =
        ((4 : ℤ) : ℚ) := by norm_num [witChain5]
    unfold pyDivFloat
    rw [hq, rnd_intCast (by norm_num), pyInt_intCast]
  have h := (C5_burn_skip_signal witChain5 1 50 true rfl (by norm_num [witChain5])
    (by norm_num) (by rw [hval]; norm_num)).1
  rw [h]
  simp [hval]

/-- C2 (amended): a full migrate (`percentage == 100`, `collect_fees`,
`burn_old`) executes `decrease(old, L)` then `collect(old)` then `burn(old)` —
the burn occurs inside the remove step, BEFORE the mint — and only then mints,
supplying not the just-collected balances but the caller's full post-collect
wallet balances round-tripped through `balance_human`/`to_wei`
(pre-existing holdings included), preceded by any needed approvals. -/
theorem C2_migrate_order (c : Chain) (tid ntl ntu sl sp : ℤ) (c3 : Chain)
    (t0 t1 : Address) (L rtl rtu w0 w1 : ℤ)
    (ht0 : t0 = (c.positions tid).token0)
    (ht1 : t1 = (c.positions tid).token1)
    (hLdef : L = (c.positions tid).liquidity)
    (howner : c.owner tid = c.selfAddr)
    (hL : L ≠ 0)
    (hsp : get_tick_spacing (c.positions tid).fee = some sp)
    (horder : t0 < t1)
    (hc3 : c3 = nfpmBurn (nfpmCollect (nfpmDecrease c tid L) tid) tid)
    (hrtl : rtl = round_tick_to_spacing (round_tick_to_spacing ntl sp) sp)
    (hrtu : rtu = round_tick_to_spacing (round_tick_to_spacing ntu sp) sp)
    (hw0 : w0 = to_wei c3 t0 (balance_human c3 t0))
    (hw1 : w1 = to_wei c3 t1 (balance_human c3 t1))
    (htick : rtl < rtu)
    (hb0 : w0 ≤ c3.wallet t0)
    (hb1 : w1 ≤ c3.wallet t1) :
    migrateEvents c tid ntl ntu 100 true true sl =
      .ok ([Event.decrease tid L, Event.collect tid, Event.burn tid] ++
        ((erc20Approve c3 t0 w0).2 ++
         (erc20Approve (erc20Approve c3 t0 w0).1 t1 w1).2 ++
         [Event.mint t0 t1 (c.positions tid).fee rtl rtu w0 w1
           (calculate_slippage_amounts w0 w1 sl).1
           (calculate_slippage_amounts w0 w1 sl).2])) :=
  migrate_trace c tid ntl ntu sl sp c3 t0 t1 L rtl rtu w0 w1 ht0 ht1 hLdef
    howner hL hsp horder hc3 hrtl hrtu hw0 hw1 htick hb0 hb1

/-- Concrete state for the C2 counterexample: position with liquidity 1000,
pending payouts (30, 40), and a pre-existing wallet balance of 7 token0. -/
def cexChain2 : Chain :=
  ⟨1, fun _ => 1, fun _ => ⟨5, 9, 3000, 0, 60, 1000⟩,
   fun a => if a = 5 then 7 else 0, fun _ => 1000000, fun _ => 0,
   fun _ => 30, fun _ => 40, 2⟩

/-- C2: the actual migrate trace is decrease, collect, burn, mint — the burn
precedes the mint (the claim requires the burn only after the mint), and the
mint consumes the full wallet balance 37 = 7 pre-existing + 30 collected, not
the collected balances alone. -/
theorem C2_counterexample :
    migrateEvents cexChain2 1 0 60 100 true true 0 =
      .ok [Event.decrease 1 1000, Event.collect 1, Event.burn 1,
           Event.mint 5 9 3000 0 60 37 40 37 40] ∧
    ([Event.decrease 1 1000, Event.collect 1, Event.burn 1,
      Event.mint 5 9 3000 0 60 37 40 37 40] : List Event) ≠
      [Event.decrease 1 1000, Event.collect 1,
       Event.mint 5 9 3000 0 60 37 40 37 40, Event.burn 1] := by
  constructor
  · have hwal0 : (nfpmBurn (nfpmCollect (nfpmDecrease cexChain2 1 1000) 1) 1).wallet 5
        = 37 := by
      norm_num [nfpmBurn, nfpmCollect, nfpmDecrease, cexChain2]
    have hwal1 : (nfpmBurn (nfpmCollect (nfpmDecrease cexChain2 1 1000) 1) 1).wallet 9
        = 40 := by
      norm_num [nfpmBurn, nfpmCollect, nfpmDecrease, cexChain2]
    have hw0 : (37 : ℤ) = to_wei (nfpmBurn (nfpmCollect (nfpmDecrease cexChain2 1 1000) 1) 1)
        5 (balance_human (nfpmBurn (nfpmCollect (nfpmDecrease cexChain2 1 1000) 1) 1) 5) := by
      rw [balance_human_decZero _ _ rfl (by rw [hwal0]; norm_num), hwal0,
        to_wei_decZero _ _ rfl 37 (by norm_num)]
    have hw1 : (40 : ℤ) = to_wei (nfpmBurn (nfpmCollect (nfpmDecrease cexChain2 1 1000) 1) 1)
        9 (balance_human (nfpmBurn (nfpmCollect (nfpmDecrease cexChain2 1 1000) 1) 1) 9) := by
      rw [balance_human_decZero _ _ rfl (by rw [hwal1]; norm_num), hwal1,
        to_wei_decZero _ _ rfl 40 (by norm_num)]
    have h := C2_migrate_order cexChain2 1 0 60 0 60
      (nfpmBurn (nfpmCollect (nfpmDecrease cexChain2 1 1000) 1) 1) 5 9 1000 0 60 37 40
      rfl rfl rfl rfl (by norm_num) (by decide) (by norm_num) rfl (by decide) (by decide)
      hw0 hw1 (by norm_num) (by rw [hwal0]) (by rw [hwal1])
    have hall : (37 : ℤ) ≤ (nfpmBurn (nfpmCollect (nfpmDecrease cexChain2 1 1000) 1)
        1).allowance 5 := by
      norm_num [nfpmBurn, nfpmCollect, nfpmDecrease, cexChain2]
    have hap0 : erc20Approve (nfpmBurn (nfpmCollect (nfpmDecrease cexChain2 1 1000) 1) 1)
        5 37 = (nfpmBurn (nfpmCollect (nfpmDecrease cexChain2 1 1000) 1) 1, []) := by
      simp [erc20Approve, hall]
    have hall1 : (40 : ℤ) ≤ (nfpmBurn (nfpmCollect (nfpmDecrease cexChain2 1 1000) 1)
        1).allowance 9 := by
      norm_num [nfpmBurn, nfpmCollect, nfpmDecrease, cexChain2]
    have hap1 : erc20Approve (nfpmBurn (nfpmCollect (nfpmDecrease cexChain2 1 1000) 1) 1)
        9 40 = (nfpmBurn (nfpmCollect (nfpmDecrease cexChain2 1 1000) 1) 1, []) := by
      simp [erc20Approve, hall1]
    rw [h]
    simp only [hap0, hap1, slippage_bps_zero (show |(37 : ℤ)| ≤ 2 ^ 53 by norm_num)
      (show |(40 : ℤ)| ≤ 2 ^ 53 by norm_num)]
    simp [cexChain2]
  · decide

/-- Concrete state for the C2 witness: same position but an empty wallet, so
the minted amounts coincide with the collected payouts. -/
def witChain2 : Chain :=
  ⟨1, fun _ => 1, fun _ => ⟨5, 9, 3000, 0, 60, 1000⟩,
   fun _ => 0, fun _ => 1000000, fun _ => 0,
   fun _ => 30, fun _ => 40, 2⟩

theorem C2_witness :
    migrateEvents witChain2 1 0 60 100 true true 0 =
      .ok [Event.decrease 1 1000, Event.collect 1, Event.burn 1,
           Event.mint 5 9 3000 0 60 30 40 30 40] := by
  have hwal0 : (nfpmBurn (nfpmCollect (nfpmDecrease witChain2 1 1000) 1) 1).wallet 5
      = 30 := by
    norm_num [nfpmBurn, nfpmCollect, nfpmDecrease, witChain2]
  have hwal1 : (nfpmBurn (nfpmCollect (nfpmDecrease witChain2 1 1000) 1) 1).wallet 9
      = 40 := by
    norm_num [nfpmBurn, nfpmCollect, nfpmDecrease, witChain2]
  have hw0 : (30 : ℤ) = to_wei (nfpmBurn (nfpmCollect (nfpmDecrease witChain2 1 1000) 1) 1)
      5 (balance_human (nfpmBurn (nfpmCollect (nfpmDecrease witChain2 1 1000) 1) 1) 5) := by
    rw [balance_human_decZero _ _ rfl (by rw [hwal0]; norm_num), hwal0,
      to_wei_decZero _ _ rfl 30 (by norm_num)]
  have hw1 : (40 : ℤ) = to_wei (nfpmBurn (nfpmCollect (nfpmDecrease witChain2 1 1000) 1) 1)
      9 (balance_human (nfpmBurn (nfpmCollect (nfpmDecrease witChain2 1 1000) 1) 1) 9) := by
    rw [balance_human_decZero _ _ rfl (by rw [hwal1]; norm_num), hwal1,
      to_wei_decZero _ _ rfl 40 (by norm_num)]
  have h := C2_migrate_order witChain2 1 0 60 0 60
    (nfpmBurn (nfpmCollect (nfpmDecrease witChain2 1 1000) 1) 1) 5 9 1000 0 60 30 40
    rfl rfl rfl rfl (by norm_num) (by decide) (by norm_num) rfl (by decide) (by decide)
    hw0 hw1 (by norm_num) (by rw [hwal0]) (by rw [hwal1])
  have hall : (30 : ℤ) ≤ (nfpmBurn (nfpmCollect (nfpmDecrease witChain2 1 1000) 1)
      1).allowance 5 := by
    norm_num [nfpmBurn, nfpmCollect, nfpmDecrease, witChain2]
  have hap0 : erc20Approve (nfpmBurn (nfpmCollect (nfpmDecrease witChain2 1 1000) 1) 1)
      5 30 = (nfpmBurn (nfpmCollect (nfpmDecrease witChain2 1 1000) 1) 1, []) := by
    simp [erc20Approve, hall]
  have hall1 : (40 : ℤ) ≤ (nfpmBurn (nfpmCollect (nfpmDecrease witChain2 1 1000) 1)
      1).allowance 9 := by
    norm_num [nfpmBurn, nfpmCollect, nfpmDecrease, witChain2]
  have hap1 : erc20Approve (nfpmBurn (nfpmCollect (nfpmDecrease witChain2 1 1000) 1) 1)
      9 40 = (nfpmBurn (nfpmCollect (nfpmDecrease witChain2 1 1000) 1) 1, []) := by
    simp [erc20Approve, hall1]
  rw [h]
  simp only [hap0, hap1, slippage_bps_zero (show |(30 : ℤ)| ≤ 2 ^ 53 by norm_num)
    (show |(40 : ℤ)| ≤ 2 ^ 53 by norm_num)]
  simp [witChain2]

/-- C9 (amended): `add_liquidity` performs no zero-minimum slippage check.
With tolerance 10000 bps the computed minimums are 0 for any amounts, and the
mint is submitted with those zero minimums; no error is raised. -/
theorem C9_zero_minimum_accepted (c : Chain) (t0 t1 : Address) (fee tl tu : ℤ)
    (a0 a1 : ℚ) (sp rtl rtu w0 w1 : ℤ)
    (horder : t0 < t1)
    (hsp : get_tick_spacing fee = some sp)
    (hrtl : rtl = round_tick_to_spacing tl sp)
    (hrtu : rtu = round_tick_to_spacing tu sp)
    (htick : rtl < rtu)
    (hw0 : w0 = to_wei c t0 a0)
    (hw1 : w1 = to_wei c t1 a1)
    (hb0 : w0 ≤ c.wallet t0)
    (hb1 : w1 ≤ c.wallet t1) :
    addEvents c t0 t1 fee tl tu a0 a1 10000 =
      .ok ((erc20Approve c t0 w0).2 ++
        (erc20Approve (erc20Approve c t0 w0).1 t1 w1).2 ++
        [Event.mint t0 t1 fee rtl rtu w0 w1 0 0]) := by
  have h := add_trace c t0 t1 fee tl tu a0 a1 10000 sp rtl rtu w0 w1 horder hsp
    hrtl hrtu htick hw0 hw1 hb0 hb1
  rw [h, slippage_bps_full w0 w1]

/-- Concrete state for the C9 counterexample. -/
def cexChain9 : Chain :=
  ⟨1, fun _ => 1, fun _ => ⟨5, 9, 3000, 0, 60, 1000⟩,
   fun a => if a = 5 then 5 else 7, fun _ => 1000000, fun _ => 0,
   fun _ => 0, fun _ => 0, 2⟩

/-- C9: with non-zero amounts (5 and 7) and tolerance 10000 bps the computed
minimums are 0, yet `add_liquidity` succeeds and submits the mint with zero
minimums — no SlippageExceeded-style error is raised (no such check or error
class exists in the code). -/
theorem C9_counterexample :
    addEvents cexChain9 5 9 3000 0 60 ((5 : ℤ) : ℚ) ((7 : ℤ) : ℚ) 10000 =
      .ok [Event.mint 5 9 3000 0 60 5 7 0 0] ∧ (5 : ℤ) ≠ 0 := by
  constructor
  · have hw0 : (5 : ℤ) = to_wei cexChain9 5 ((5 : ℤ) : ℚ) :=
      (to_wei_decZero cexChain9 5 rfl 5 (by norm_num)).symm
    have hw1 : (7 : ℤ) = to_wei cexChain9 9 ((7 : ℤ) : ℚ) :=
      (to_wei_decZero cexChain9 9 rfl 7 (by norm_num)).symm
    have h := add_trace cexChain9 5 9 3000 0 60 ((5 : ℤ) : ℚ) ((7 : ℤ) : ℚ) 10000
      60 0 60 5 7 (by norm_num) (by decide) (by decide) (by decide) (by norm_num)
      hw0 hw1 (by norm_num [cexChain9]) (by norm_num [cexChain9])
    rw [h, slippage_bps_full 5 7]
    have hap0 : erc20Approve cexChain9 5 5 = (cexChain9, []) := by
      simp [erc20Approve, show (5 : ℤ) ≤ cexChain9.allowance 5 by norm_num [cexChain9]]
    have hap1 : erc20Approve cexChain9 9 7 = (cexChain9, []) := by
      simp [erc20Approve, show (7 : ℤ) ≤ cexChain9.allowance 9 by norm_num [cexChain9]]
    simp [hap0, hap1]
  · norm_num

/-- Concrete state for the C9 witness. -/
def witChain9 : Chain :=
  ⟨1, fun _ => 1, fun _ => ⟨5, 9, 3000, 0, 60, 1000⟩,
   fun a => if a = 5 then 3 else 4, fun _ => 1000000, fun _ => 0,
   fun _ => 0, fun _ => 0, 2⟩

theorem C9_witness :
    addEvents witChain9 5 9 3000 0 60 ((3 : ℤ) : ℚ) ((4 : ℤ) : ℚ) 10000 =
      .ok [Event.mint 5 9 3000 0 60 3 4 0 0] := by
  have hw0 : (3 : ℤ) = to_wei witChain9 5 ((3 : ℤ) : ℚ) :=
    (to_wei_decZero witChain9 5 rfl 3 (by norm_num)).symm
  have hw1 : (4 : ℤ) = to_wei witChain9 9 ((4 : ℤ) : ℚ) :=
    (to_wei_decZero witChain9 9 rfl 4 (by norm_num)).symm
  have h := C9_zero_minimum_accepted witChain9 5 9 3000 0 60 ((3 : ℤ) : ℚ)
    ((4 : ℤ) : ℚ) 60 0 60 3 4 (by norm_num) (by decide) (by decide) (by decide)
    (by norm_num) hw0 hw1 (by norm_num [witChain9]) (by norm_num [witChain9])
  rw [h]
  have hap0 : erc20Approve witChain9 5 3 = (witChain9, []) := by
    simp [erc20Approve, show (3 : ℤ) ≤ witChain9.allowance 5 by norm_num [witChain9]]
  have hap1 : erc20Approve witChain9 9 4 = (witChain9, []) := by
    simp [erc20Approve, show (4 : ℤ) ≤ witChain9.allowance 9 by norm_num [witChain9]]
  simp [hap0, hap1]

/-!
Embedding of `src/amm_trading/utils/gas.py` (`GasManager.getGasParams`) and
`src/amm_trading/utils/transactions.py` (`TransactionBuilder.build_and_send`).
-/

inductive GasErr where
  | gasPriceTooHigh
deriving DecidableEq, Repr

structure GasParams where
  maxFeePerGas : ℤ
  maxPriorityFeePerGas : ℤ
  gas : ℤ
deriving DecidableEq, Repr

/-- `GasManager.getGasParams(operation_type, gas_buffer)`.  `baseFee` is the
observed base fee in wei; the configured ceiling and priority fee are binary64
gwei values (None when unset).  Python's `or 1.5` treats a 0.0 priority fee as
unset.  The float literal `1e9` is exactly `10^9`; `1.2` is the binary64 value
nearest `6/5`, that is `rnd (6/5)`.  `gasLimit` stands for the configured
per-operation gas limit. -/
def getGasParams (maxFeePerGas maxPriorityFeePerGas : Option ℚ)
    (baseFee gasLimit : ℤ) (gas_buffer : ℚ) : Except GasErr GasParams :=
  let priority_fee_gwei : ℚ :=
    match maxPriorityFeePerGas with
    | none => 3 / 2
    | some p => if p = 0 then 3 / 2 else p
  let priority_fee_wei : ℤ := pyInt (pyMul priority_fee_gwei ((10 : ℚ) ^ (9 : ℕ)))
  let gas : ℤ := pyInt (pyMul (pyFloat gasLimit) gas_buffer)
  match maxFeePerGas with
  | some g =>
    let max_fee_wei := pyInt (pyMul g ((10 : ℚ) ^ (9 : ℕ)))
    if max_fee_wei < baseFee then .error .gasPriceTooHigh
    else .ok ⟨max_fee_wei, priority_fee_wei, gas⟩
  | none =>
    .ok ⟨pyInt (pyMul (pyFloat (baseFee + priority_fee_wei)) (rnd (6 / 5))),
         priority_fee_wei, gas⟩

inductive TxEvent where
  | submit (maxFee prio gas : ℤ)
deriving DecidableEq, Repr

/-- `TransactionBuilder.build_and_send`: gas parameters are computed and
validated first (with `gas_buffer = 1.0`); a `GasPriceTooHighError` aborts
before the transaction is signed or sent.  `estGas` stands for the externally
estimated gas amount. -/
def build_and_send (maxFeePerGas maxPriorityFeePerGas : Option ℚ)
    (baseFee gasLimit estGas : ℤ) (gas_buffer : ℚ) : Except GasErr (List TxEvent) :=
  match getGasParams maxFeePerGas maxPriorityFeePerGas baseFee gasLimit 1 with
  | .error e => .error e
  | .ok p => .ok [TxEvent.submit p.maxFeePerGas p.maxPriorityFeePerGas
      (pyInt (pyMul (pyFloat estGas) gas_buffer))]

/-- C4: if a hard maximum-fee ceiling is set and its wei conversion
`int(ceiling_gwei * 1e9)` is strictly below the observed base fee, the fee
computation fails with `GasPriceTooHighError` and `build_and_send` errors
with no submission in its trace; if no ceiling is set, or the ceiling is not
below the base fee, the computation succeeds and no such error is raised. -/
theorem C4_fee_ceiling (mf mp : Option ℚ) (baseFee gasLimit estGas : ℤ) (buf : ℚ) :
    (∀ g, mf = some g → pyInt (pyMul g ((10 : ℚ) ^ (9 : ℕ))) < baseFee →
      getGasParams mf mp baseFee gasLimit 1 = .error .gasPriceTooHigh ∧
      build_and_send mf mp baseFee gasLimit estGas buf = .error .gasPriceTooHigh) ∧
    (mf = none → ∃ p, getGasParams mf mp baseFee gasLimit 1 = .ok p) ∧
    (∀ g, mf = some g → ¬ pyInt (pyMul g ((10 : ℚ) ^ (9 : ℕ))) < baseFee →
      ∃ p, getGasParams mf mp baseFee gasLimit 1 = .ok p) := by
  refine ⟨?_, ?_, ?_⟩
  · rintro g rfl hlt
    refine ⟨?_, ?_⟩
    · simp [getGasParams, hlt]
    · simp [build_and_send, getGasParams, hlt]
  · rintro rfl
    exact ⟨_, rfl⟩
  · rintro g rfl hnlt
    refine ⟨⟨pyInt (pyMul g ((10 : ℚ) ^ (9 : ℕ))),
      pyInt (pyMul (match mp with
        | none => 3 / 2
        | some p => if p = 0 then 3 / 2 else p) ((10 : ℚ) ^ (9 : ℕ))),
      pyInt (pyMul (pyFloat gasLimit) 1)⟩, ?_⟩
    simp [getGasParams, hnlt]

theorem C4_witness :
    build_and_send (some 30) none 31000000000 500000 500000 (6 / 5) =
      .error GasErr.gasPriceTooHigh := by
  have hval : pyInt (pyMul (30 : ℚ) ((10 : ℚ) ^ (9 : ℕ))) = 30000000000 := by
    unfold pyMul
    rw [show (30 : ℚ) * (10 : ℚ) ^ (9 : ℕ) = ((30000000000 : ℤ) : ℚ) by norm_num,
      rnd_intCast (by norm_num), pyInt_intCast]
  exact ((C4_fee_ceiling (some 30) none 31000000000 500000 500000 (6 / 5)).1 30 rfl
    (by rw [hval]; norm_num)).2

/-!
Embedding of `LiquidityManager.calculate_optimal_amounts`
(`src/amm_trading/protocols/uniswap_v3/operations/liquidity.py`; the v4
variant in `protocols/uniswap_v4/operations/liquidity.py` has the same
branch structure).  The pool lookup, slot0 read, token metadata, and the
transcendental float price computations (`1.0001 ** tick`, the mixed-regime
ratio — C `pow`, not correctly rounded, hence not specifiable exactly) are
parameters of an explicit `World`; the claims under verification do not
depend on their values. -/

structure World where
  decimalsOf : Address → ℕ
  symbolOf : Address → String
  getPool : Address → Address → ℤ → Option Address
  slot0Tick : Address → ℤ
  slot0SqrtPrice : Address → ℤ
  tickPrice : ℤ → ℕ → ℕ → ℚ
  mixedAmount1 : ℚ → ℤ → ℤ → ℤ → ℕ → ℕ → ℚ
  mixedAmount0 : ℚ → ℤ → ℤ → ℤ → ℕ → ℕ → ℚ

structure TokenEntry where
  symbol : String
  address : Address
  amount : ℚ
  decimals : ℕ
deriving DecidableEq, Repr

structure PlanResult where
  token0 : TokenEntry
  token1 : TokenEntry
  current_price : ℚ
  price_lower : ℚ
  price_upper : ℚ
  tick_lower : ℤ
  tick_upper : ℤ
  current_tick : ℤ
  position_type : String
deriving DecidableEq, Repr

inductive PlanErr where
  | invalidAmountSpec
  | poolMissing
  | belowRangeOnlyToken0
  | aboveRangeOnlyToken1
deriving DecidableEq, Repr

/-- `calculate_optimal_amounts(token0, token1, fee, tick_lower, tick_upper,
amount0_desired, amount1_desired)`.  After the exactly-one precondition check,
out-of-order token identities are swapped into canonical order together with
the single supplied amount, and on success the two result entries are swapped
back. -/
def calculate_optimal_amounts (w : World) (token0 token1 : Address)
    (fee tick_lower tick_upper : ℤ) (amount0_desired amount1_desired : Option ℚ) :
    Except PlanErr PlanResult :=
  if (amount0_desired.isNone && amount1_desired.isNone) ||
     (amount0_desired.isSome && amount1_desired.isSome) then
    .error .invalidAmountSpec
  else
    let swapped := token1 < token0
    let c0 := if swapped then token1 else token0
    let c1 := if swapped then token0 else token1
    let a01 : Option ℚ × Option ℚ :=
      if swapped then
        if amount0_desired.isSome then (none, amount0_desired)
        else (amount1_desired, none)
      else (amount0_desired, amount1_desired)
    match w.getPool c0 c1 fee with
    | none => .error .poolMissing
    | some pool =>
      let current_tick := w.slot0Tick pool
      let sqrt_price_x96 := w.slot0SqrtPrice pool
      let d0 := w.decimalsOf c0
      let d1 := w.decimalsOf c1
      let current_price := w.tickPrice current_tick d0 d1
      let price_lower := w.tickPrice tick_lower d0 d1
      let price_upper := w.tickPrice tick_upper d0 d1
      let step : Except PlanErr (ℚ × ℚ × String) :=
        if current_tick < tick_lower then
          if a01.2.isSome then .error .belowRangeOnlyToken0
          else .ok (a01.1.getD 0, 0, "below_range")
        else if tick_upper < current_tick then
          if a01.1.isSome then .error .aboveRangeOnlyToken1
          else .ok (0, a01.2.getD 0, "above_range")
        else
          match a01.1 with
          | some a0 =>
            .ok (a0, w.mixedAmount1 a0 sqrt_price_x96 tick_lower tick_upper d0 d1,
                 "in_range")
          | none =>
            .ok (w.mixedAmount0 (a01.2.getD 0) sqrt_price_x96 tick_lower tick_upper d0 d1,
                 a01.2.getD 0, "in_range")
      match step with
      | .error e => .error e
      | .ok v =>
        let res : PlanResult :=
          { token0 := ⟨w.symbolOf c0, c0, v.1, d0⟩
            token1 := ⟨w.symbolOf c1, c1, v.2.1, d1⟩
            current_price := current_price
            price_lower := price_lower
            price_upper := price_upper
            tick_lower := tick_lower
            tick_upper := tick_upper
            current_tick := current_tick
            position_type := v.2.2 }
        .ok (if swapped then { res with token0 := res.token1, token1 := res.token0 }
             else res)

/-- C7: the planner's precondition-check error `InvalidAmountSpecification`
is raised exactly when both desired amounts are supplied or neither is; with
exactly one supplied the check passes and the planner proceeds (it may still
fail for other reasons, but never with this error). -/
theorem C7_exactly_one (w : World) (t0 t1 : Address) (fee tl tu : ℤ)
    (a0 a1 : Option ℚ) :
    calculate_optimal_amounts w t0 t1 fee tl tu a0 a1 =
        .error PlanErr.invalidAmountSpec ↔
      ((a0 = none ∧ a1 = none) ∨ (a0.isSome ∧ a1.isSome)) := by
  cases a0 <;> cases a1 <;>
    simp only [calculate_optimal_amounts, Option.isNone_none, Option.isNone_some,
      Option.isSome_none, Option.isSome_some, Bool.and_self, Bool.and_false,
      Bool.false_and, Bool.true_and, Bool.and_true, Bool.or_self, Bool.false_or,
      Bool.or_false, if_true, if_false, Bool.true_or] <;>
    simp_all
  · rcases hgp : w.getPool (if t1 < t0 then t1 else t0) (if t1 < t0 then t0 else t1) fee
      with _ | pool <;> simp only [hgp]
    · simp
    · split
      · rename_i e heq
        repeat' split at heq
        all_goals try simp_all
        all_goals rw [← heq]
        all_goals simp
      · simp
  · rcases hgp : w.getPool (if t1 < t0 then t1 else t0) (if t1 < t0 then t0 else t1) fee
      with _ | pool <;> simp only [hgp]
    · simp
    · split
      · rename_i e heq
        repeat' split at heq
        all_goals try simp_all
        all_goals rw [← heq]
        all_goals simp
      · simp

/-- C6: when the pool's current tick is strictly below the requested range
(tokens given in canonical pool order), supplying a token1 amount is rejected
with the below-range error before any amounts are computed, while supplying a
token0 amount succeeds with `amount1 = 0` and classification `below_range`
(the supplied token0 amount passes through). -/
theorem C6_below_range (w : World) (t0 t1 : Address) (fee tl tu : ℤ) (x : ℚ)
    (pool : Address)
    (horder : t0 < t1)
    (hpool : w.getPool t0 t1 fee = some pool)
    (hbelow : w.slot0Tick pool < tl) :
    calculate_optimal_amounts w t0 t1 fee tl tu none (some x) =
      .error PlanErr.belowRangeOnlyToken0 ∧
    ∃ res, calculate_optimal_amounts w t0 t1 fee tl tu (some x) none = .ok res ∧
      res.position_type = "below_range" ∧ res.token0.amount = x ∧
      res.token1.amount = 0 := by
  have hns : ¬ t1 < t0 := lt_asymm horder
  constructor
  · simp [calculate_optimal_amounts, hns, hpool, hbelow]
  · refine ⟨{ token0 := ⟨w.symbolOf t0, t0, x, w.decimalsOf t0⟩
              token1 := ⟨w.symbolOf t1, t1, 0, w.decimalsOf t1⟩
              current_price := w.tickPrice (w.slot0Tick pool) (w.decimalsOf t0)
                (w.decimalsOf t1)
              price_lower := w.tickPrice tl (w.decimalsOf t0) (w.decimalsOf t1)
              price_upper := w.tickPrice tu (w.decimalsOf t0) (w.decimalsOf t1)
              tick_lower := tl
              tick_upper := tu
              current_tick := w.slot0Tick pool
              position_type := "below_range" }, ?_, rfl, rfl, rfl⟩
    simp [calculate_optimal_amounts, hns, hpool, hbelow]

/-- Concrete world for the C6 witness: a pool at tick −50 with the requested
range starting at 0. -/
def witWorld6 : World :=
  ⟨fun _ => 6, fun _ => "TOK", fun _ _ _ => some 77, fun _ => -50, fun _ => 0,
   fun _ _ _ => 0, fun _ _ _ _ _ _ => 0, fun _ _ _ _ _ _ => 0⟩

theorem C6_witness :
    calculate_optimal_amounts witWorld6 5 9 3000 0 60 none (some 1) =
      .error PlanErr.belowRangeOnlyToken0 ∧
    ∃ res, calculate_optimal_amounts witWorld6 5 9 3000 0 60 (some 1) none = .ok res ∧
      res.position_type = "below_range" ∧ res.token0.amount = 1 ∧
      res.token1.amount = 0 :=
  C6_below_range witWorld6 5 9 3000 0 60 1 77 (by norm_num) rfl (by decide)

/-- C10: when the caller's token identities arrive out of canonical order, the
planner swaps them (moving the single supplied amount to the other role) and
swaps the result entries back: on every successful call each caller-named
token keeps its own address, symbol and decimals in the returned entries, and
the supplied desired amount appears on the entry of the token it was supplied
for. -/
theorem C10_swapped_result (w : World) (t0 t1 : Address) (fee tl tu : ℤ)
    (a0 a1 : Option ℚ)
    (hswap : t1 < t0) :
    ∀ res, calculate_optimal_amounts w t0 t1 fee tl tu a0 a1 = .ok res →
      (res.token0.address = t0 ∧ res.token0.symbol = w.symbolOf t0 ∧
       res.token0.decimals = w.decimalsOf t0 ∧
       res.token1.address = t1 ∧ res.token1.symbol = w.symbolOf t1 ∧
       res.token1.decimals = w.decimalsOf t1) ∧
      (∀ x, a0 = some x → res.token0.amount = x) ∧
      (∀ y, a1 = some y → res.token1.amount = y) := by
  intro res h
  cases a0 <;> cases a1 <;>
    simp only [calculate_optimal_amounts, Option.isNone_none, Option.isNone_some,
      Option.isSome_none, Option.isSome_some, Bool.and_self, Bool.and_false,
      Bool.false_and, Bool.true_and, Bool.and_true, Bool.or_self, Bool.false_or,
      Bool.or_false, Bool.true_or, if_true, if_false, if_pos hswap] at h
  · simp at h
  · -- only amount1 supplied: it becomes the canonical amount0
    rcases hgp : w.getPool t1 t0 fee with _ | pool <;> rw [hgp] at h
    · simp at h
    · repeat' split at h
      all_goals try simp_all
      all_goals try (obtain ⟨rfl⟩ := h; simp)
      all_goals rename_i heq
      all_goals repeat' split at heq
      all_goals first
        | (subst heq; rfl)
        | (injection heq with h2; subst h2; rfl)
        | injection heq
  · -- only amount0 supplied: it becomes the canonical amount1
    rcases hgp : w.getPool t1 t0 fee with _ | pool <;> rw [hgp] at h
    · simp at h
    · repeat' split at h
      all_goals try simp_all
      all_goals try (obtain ⟨rfl⟩ := h; simp)
      all_goals rename_i heq
      all_goals repeat' split at heq
      all_goals first
        | (subst heq; rfl)
        | (injection heq with h2; subst h2; rfl)
        | injection heq
  · simp at h

/-- Concrete world for the C10 witness: a pool at tick 30 inside the range. -/
def witWorld10 : World :=
  ⟨fun _ => 6, fun a => if a = 9 then "AAA" else "BBB", fun _ _ _ => some 77,
   fun _ => 30, fun _ => 0, fun _ _ _ => 0, fun _ _ _ _ _ _ => 0,
   fun _ _ _ _ _ _ => 0⟩

theorem C10_witness :
    ∃ res, calculate_optimal_amounts witWorld10 9 5 3000 0 60 (some 2) none =
        .ok res ∧
      res.token0.address = 9 ∧ res.token0.symbol = "AAA" ∧
      res.token0.amount = 2 ∧ res.token1.address = 5 := by
  have hval : calculate_optimal_amounts witWorld10 9 5 3000 0 60 (some 2) none =
      .ok { token0 := ⟨"AAA", 9, 2, 6⟩
            token1 := ⟨"BBB", 5, witWorld10.mixedAmount0 2 0 0 60 6 6, 6⟩
            current_price := witWorld10.tickPrice 30 6 6
            price_lower := witWorld10.tickPrice 0 6 6
            price_upper := witWorld10.tickPrice 60 6 6
            tick_lower := 0
            tick_upper := 60
            current_tick := 30
            position_type := "in_range" } := by
    simp [calculate_optimal_amounts, witWorld10]
  have h := C10_swapped_result witWorld10 9 5 3000 0 60 (some 2) none
    (by norm_num) _ hval
  exact ⟨_, hval, h.1.1, h.1.2.1, h.2.1 2 rfl, h.1.2.2.2.1⟩

end AmmTrading
